import Mathlib

/-!
Shallow embedding of `aldryn_forms/cms_plugins.py`: the recursive field-schema
collection over a tree of CMS plugin instances, the per-kind form-field
construction, and the success-URL resolution of the form container.

Python dictionaries are modelled as insertion-ordered association lists with
`dict_set` / `dict_update` reproducing CPython's `d[k] = v` / `d.update(e)`
semantics (replace in place when the key is present, append otherwise).
Python truthiness of the nullable integer columns (`min_value`, `max_value`)
is modelled by `truthy` on `Option Nat` (`None` and `0` are falsy), and
truthiness of the text columns by comparison with the empty string.
-/

/-- The plugin classes registered in `cms_plugins.py`, plus `other` standing
for any CMS plugin from outside this module: such a plugin does not define
the `get_form_fields` attribute, so the container's `hasattr` check skips it. -/
inductive PluginKind where
  | formPlugin
  | fieldset
  | textField
  | booleanField
  | selectField
  | multipleSelectField
  | captchaField
  | submitButton
  | other
deriving DecidableEq

/-- Attribute bag of one plugin instance (the model row behind a node):
`pk` is the primary key, the rest are the columns read by the field builders.
`min_value` and `max_value` are nullable integers; the text columns use `""`
for blank. `options` stands for the external `option_set` queryset. -/
structure NodeData where
  pk : Nat
  label : String
  help_text : String
  required : Bool
  required_message : String
  placeholder_text : String
  min_value : Option Nat
  max_value : Option Nat
  options : List String
deriving DecidableEq

/-- Python truthiness of a nullable integer column: `None` and `0` are falsy. -/
def truthy : Option Nat → Bool
  | none => false
  | some n => n != 0

/-- The validators attached by the field builders. The stored limit is the raw
(nullable) column value handed to the validator constructor. -/
inductive Validator where
  | minLength (limit : Option Nat)
  | minChoices (limit : Option Nat)
  | maxChoices (limit : Option Nat)
deriving DecidableEq

def Validator.isMinLength : Validator → Bool
  | .minLength _ => true
  | _ => false

def Validator.isMinChoices : Validator → Bool
  | .minChoices _ => true
  | _ => false

def Validator.isMaxChoices : Validator → Bool
  | .maxChoices _ => true
  | _ => false

/-- The input kinds of the produced form fields. -/
inductive InputKind where
  | text
  | boolean
  | singleChoice
  | multiChoice
  | captcha
deriving DecidableEq

/-- Description of one constructed form field: the constructor arguments the
plugin code passes to the form-field class. `error_messages` is the
`required`-message override (`none` means the platform default is kept);
`max_length` is only meaningful for the text kind; `options` is the choice
queryset for the select kinds; `placeholder` is the widget attribute set by
the text field builder. -/
structure FieldSpec where
  kind : InputKind
  label : String
  help_text : String
  required : Bool
  max_length : Option Nat
  error_messages : Option String
  validators : List Validator
  options : Option (List String)
  placeholder : Option String
deriving DecidableEq

/-- A collected form schema: an insertion-ordered mapping from derived field
name to field description, with Python-dict semantics. -/
abbrev Schema := List (String × FieldSpec)

/-- CPython `d[k] = v`: replace the value in place when the key is present,
otherwise append the new binding at the end. -/
def dict_set {α : Type} (d : List (String × α)) (k : String) (v : α) :
    List (String × α) :=
  if d.any (fun p => p.1 == k) then
    d.map (fun p => if p.1 == k then (k, v) else p)
  else
    d ++ [(k, v)]

/-- CPython `d.update(e)`: assign each binding of `e` into `d`, in order. -/
def dict_update {α : Type} (d e : List (String × α)) : List (String × α) :=
  e.foldl (fun acc p => dict_set acc p.1 p.2) d

/-- The key list of a dict, in insertion order. -/
def dkeys {α : Type} (d : List (String × α)) : List String :=
  d.map Prod.fst

/-- Dict lookup: the value bound to `k`, if any. -/
def dlookup {α : Type} (d : List (String × α)) (k : String) : Option α :=
  (d.find? (fun p => p.1 == k)).map Prod.snd

/-- A node of the content tree: a plugin instance with its kind, its model
row, and its children in editor-defined order. -/
inductive ContentNode where
  | mk (kind : PluginKind) (data : NodeData) (children : List ContentNode)

def ContentNode.kind : ContentNode → PluginKind
  | .mk k _ _ => k

def ContentNode.data : ContentNode → NodeData
  | .mk _ d _ => d

def ContentNode.children : ContentNode → List ContentNode
  | .mk _ _ cs => cs

/-- Which plugin classes subclass `FieldContainer` (`FormPlugin`, `Fieldset`):
these iterate their children when collecting fields. -/
def isContainer : PluginKind → Bool
  | .formPlugin => true
  | .fieldset => true
  | _ => false

/-- Which plugin classes are concrete `Field` subclasses: these contribute
exactly one form field. -/
def isField : PluginKind → Bool
  | .textField => true
  | .booleanField => true
  | .selectField => true
  | .multipleSelectField => true
  | .captchaField => true
  | _ => false

/-- The `hasattr(child_plugin, 'get_form_fields')` capability check: every
class of this module inherits the attribute from `FormElement`; only foreign
plugins (`other`) lack it. -/
def has_get_form_fields : PluginKind → Bool
  | .other => false
  | _ => true

/-- `Field.get_field_name`: `u'aldryn-forms-field-%d' % (instance.pk,)`. -/
def Field.get_field_name (inst : NodeData) : String :=
  "aldryn-forms-field-" ++ Nat.repr inst.pk

/-- `Field.get_error_messages`: the `required` override when
`instance.required_message` is truthy, else `None`. -/
def Field.get_error_messages (inst : NodeData) : Option String :=
  if inst.required_message ≠ "" then some inst.required_message else none

/-- `TextField.get_form_field`: a `CharField` with
`max_length=instance.max_value`, `required=instance.required`, a
`MinLengthValidator(instance.min_value)` when `instance.min_value` is truthy,
and the placeholder widget attribute when `instance.placeholder_text` is
truthy. -/
def TextField.get_form_field (inst : NodeData) : FieldSpec :=
  let validators := if truthy inst.min_value then [Validator.minLength inst.min_value] else []
  { kind := .text
    label := inst.label
    help_text := inst.help_text
    required := inst.required
    max_length := inst.max_value
    error_messages := Field.get_error_messages inst
    validators := validators
    options := none
    placeholder := if inst.placeholder_text ≠ "" then some inst.placeholder_text else none }

/-- `BooleanField.get_form_field`. -/
def BooleanField.get_form_field (inst : NodeData) : FieldSpec :=
  { kind := .boolean
    label := inst.label
    help_text := inst.help_text
    required := inst.required
    max_length := none
    error_messages := Field.get_error_messages inst
    validators := []
    options := none
    placeholder := none }

/-- `SelectField.get_form_field`: a `ModelChoiceField` over the instance's
option set. -/
def SelectField.get_form_field (inst : NodeData) : FieldSpec :=
  { kind := .singleChoice
    label := inst.label
    help_text := inst.help_text
    required := inst.required
    max_length := none
    error_messages := Field.get_error_messages inst
    validators := []
    options := some inst.options
    placeholder := none }

/-- `MultipleSelectField.get_form_field`: a `ModelMultipleChoiceField` with
`required=instance.min_value`, a `MinChoicesValidator(limit_value=instance.min_value)`
when `instance.min_value` is truthy, and a
`MaxChoicesValidator(limit_value=instance.min_value)` when `instance.max_value`
is truthy. No `error_messages` argument is passed. -/
def MultipleSelectField.get_form_field (inst : NodeData) : FieldSpec :=
  let vmin := if truthy inst.min_value then [Validator.minChoices inst.min_value] else []
  let vmax := if truthy inst.max_value then [Validator.maxChoices inst.min_value] else []
  { kind := .multiChoice
    label := inst.label
    help_text := inst.help_text
    required := truthy inst.min_value
    max_length := none
    error_messages := none
    validators := vmin ++ vmax
    options := some inst.options
    placeholder := none }

/-- `CaptchaField.get_form_field`: a `ReCaptchaField`, whose `required` flag
is the framework default `True`. -/
def CaptchaField.get_form_field (inst : NodeData) : FieldSpec :=
  { kind := .captcha
    label := inst.label
    help_text := ""
    required := true
    max_length := none
    error_messages := Field.get_error_messages inst
    validators := []
    options := none
    placeholder := none }

/-- Dispatch of `get_form_field` over the concrete `Field` subclasses;
`none` for the classes that are not leaf fields. -/
def Field.get_form_field? : PluginKind → NodeData → Option FieldSpec
  | .textField, inst => some (TextField.get_form_field inst)
  | .booleanField, inst => some (BooleanField.get_form_field inst)
  | .selectField, inst => some (SelectField.get_form_field inst)
  | .multipleSelectField, inst => some (MultipleSelectField.get_form_field inst)
  | .captchaField, inst => some (CaptchaField.get_form_field inst)
  | _, _ => none

mutual

/-- `get_form_fields` of a node. Containers (`FieldContainer.get_form_fields`)
fold `dict.update` of each capable child's schema into an initially empty
dict; leaf fields (`Field.get_form_fields`) return the one-entry dict
`{get_field_name(instance): get_form_field(instance)}`; `SubmitButton`
returns `{}`. A node without the capability is never queried by a container
(the `hasattr` check skips it); its contribution is the empty schema. -/
def get_form_fields : ContentNode → Schema
  | .mk k d cs =>
    if isContainer k then
      collect_children cs []
    else
      match Field.get_form_field? k d with
      | some f => [(Field.get_field_name d, f)]
      | none => []
termination_by n => sizeOf n

/-- The container loop: `for child in instance.child_plugin_instances:`
with the `hasattr` guard and `form_fields.update(fields)`. -/
def collect_children : List ContentNode → Schema → Schema
  | [], acc => acc
  | c :: cs, acc =>
    collect_children cs
      (if has_get_form_fields c.kind then dict_update acc (get_form_fields c) else acc)
termination_by cs _ => sizeOf cs

end

mutual

/-- The model rows of the field-kind descendant nodes reachable through
container links: containers gather over their children, leaf fields
contribute their own row, every other node contributes nothing. -/
def fieldDescendantData : ContentNode → List NodeData
  | .mk k d cs =>
    if isContainer k then fieldDescendantDataList cs
    else if isField k then [d]
    else []
termination_by n => sizeOf n

/-- Concatenation of `fieldDescendantData` over a child list, in order. -/
def fieldDescendantDataList : List ContentNode → List NodeData
  | [] => []
  | c :: cs => fieldDescendantData c ++ fieldDescendantDataList cs
termination_by cs => sizeOf cs

end

mutual

/-- Height of a content tree: one more than the maximal height of a child. -/
def depth : ContentNode → Nat
  | .mk _ _ cs => 1 + depthList cs
termination_by n => sizeOf n

/-- Maximal `depth` over a child list. -/
def depthList : List ContentNode → Nat
  | [] => 0
  | c :: cs => max (depth c) (depthList cs)
termination_by cs => sizeOf cs

end

mutual

/-- Fuel-bounded variant of `get_form_fields`: one unit of fuel is spent per
tree level, and the traversal reports `none` when the fuel runs out. Used to
state that the recursion of the collector is bounded by the tree depth. -/
def collectFuel : Nat → ContentNode → Option Schema
  | 0, _ => none
  | fuel + 1, .mk k d cs =>
    if isContainer k then
      collectChildrenFuel fuel cs []
    else
      match Field.get_form_field? k d with
      | some f => some [(Field.get_field_name d, f)]
      | none => some []
termination_by fuel _ => (fuel, 0)

/-- Fuel-bounded variant of `collect_children`. -/
def collectChildrenFuel : Nat → List ContentNode → Schema → Option Schema
  | _, [], acc => some acc
  | fuel, c :: cs, acc =>
    if has_get_form_fields c.kind then
      match collectFuel fuel c with
      | none => none
      | some s => collectChildrenFuel fuel cs (dict_update acc s)
    else
      collectChildrenFuel fuel cs acc
termination_by fuel cs _ => (fuel, 1 + cs.length)

end

/-- Modelled from the spec: the two redirect-kind choice constants
`REDIRECT_TO_PAGE` and `REDIRECT_TO_URL` are declared on the `FormPlugin`
model, whose module is not among the sources; they are two distinct opaque
stored values of the `redirect_type` column. -/
def REDIRECT_TO_PAGE : String := "redirect_to_page"

/-- Modelled from the spec: see `REDIRECT_TO_PAGE`. -/
def REDIRECT_TO_URL : String := "redirect_to_url"

/-- The state of one `FormPlugin` model instance read by `get_success_url`:
the stored redirect kind, the absolute URL of the configured page (the
external `page.get_absolute_url()` resolver's answer), and the configured
URL string. -/
structure FormPluginData where
  redirect_type : String
  page_url : String
  url : String

/-- `FormPlugin.get_success_url`: the page's absolute URL for the to-page
kind, the stored URL for the to-URL kind, and `RuntimeError` otherwise. -/
def FormPlugin.get_success_url (inst : FormPluginData) : Except String String :=
  if inst.redirect_type == REDIRECT_TO_PAGE then
    .ok inst.page_url
  else if inst.redirect_type == REDIRECT_TO_URL then
    .ok inst.url
  else
    .error "Form is not configured properly."

theorem any_key_eq {α : Type} (d : List (String × α)) (k : String) :
    d.any (fun p => p.1 == k) = true ↔ k ∈ dkeys d := by
  rw [List.any_eq_true]
  constructor
  · rintro ⟨p, hp, hpk⟩
    exact List.mem_map.mpr ⟨p, hp, by simpa using hpk⟩
  · intro hk
    obtain ⟨p, hp, rfl⟩ := List.mem_map.mp hk
    exact ⟨p, hp, by simp⟩

theorem dkeys_dict_set {α : Type} (d : List (String × α)) (k : String) (v : α) :
    dkeys (dict_set d k v) = if k ∈ dkeys d then dkeys d else dkeys d ++ [k] := by
  by_cases h : k ∈ dkeys d
  · rw [if_pos h, dict_set, if_pos ((any_key_eq d k).mpr h)]
    simp only [dkeys, List.map_map]
    apply List.map_congr_left
    intro p _
    by_cases hpk : p.1 = k
    · simp [Function.comp, hpk]
    · simp [Function.comp, hpk]
  · rw [if_neg h, dict_set, if_neg (fun hh => h ((any_key_eq d k).mp hh))]
    simp [dkeys]

theorem nodup_dkeys_dict_set {α : Type} {d : List (String × α)} {k : String} {v : α}
    (h : (dkeys d).Nodup) : (dkeys (dict_set d k v)).Nodup := by
  rw [dkeys_dict_set]
  by_cases hk : k ∈ dkeys d
  · simpa [hk]
  · simp [hk, List.nodup_append, h]

theorem mem_dkeys_dict_set {α : Type} (d : List (String × α)) (k x : String) (v : α) :
    x ∈ dkeys (dict_set d k v) ↔ x ∈ dkeys d ∨ x = k := by
  rw [dkeys_dict_set]
  by_cases h : k ∈ dkeys d
  · rw [if_pos h]
    constructor
    · exact Or.inl
    · rintro (hx | rfl)
      · exact hx
      · exact h
  · rw [if_neg h]
    simp

theorem mem_dkeys_dict_update {α : Type} (d e : List (String × α)) (x : String) :
    x ∈ dkeys (dict_update d e) ↔ x ∈ dkeys d ∨ x ∈ dkeys e := by
  induction e generalizing d with
  | nil => simp [dict_update, dkeys]
  | cons p e ih =>
    simp only [dict_update, List.foldl_cons]
    rw [show List.foldl (fun acc q => dict_set acc q.1 q.2) (dict_set d p.1 p.2) e =
          dict_update (dict_set d p.1 p.2) e from rfl, ih, mem_dkeys_dict_set]
    simp only [dkeys, List.map_cons, List.mem_cons]
    tauto

theorem nodup_dkeys_dict_update {α : Type} (d e : List (String × α))
    (h : (dkeys d).Nodup) : (dkeys (dict_update d e)).Nodup := by
  induction e generalizing d with
  | nil => simpa [dict_update]
  | cons p e ih =>
    simp only [dict_update, List.foldl_cons]
    exact ih (dict_set d p.1 p.2) (nodup_dkeys_dict_set h)

theorem dlookup_eq_none {α : Type} (d : List (String × α)) (k : String) :
    dlookup d k = none ↔ k ∉ dkeys d := by
  induction d with
  | nil => simp [dlookup, dkeys]
  | cons p d ih =>
    by_cases h : p.1 = k
    · constructor
      · intro hl
        unfold dlookup at hl
        rw [List.find?_cons_of_pos _ (by simpa using h)] at hl
        simp at hl
      · intro hk
        exact absurd (List.mem_map.mpr ⟨p, List.mem_cons_self p d, h⟩) hk
    · unfold dlookup
      rw [List.find?_cons_of_neg _ (by simpa using h)]
      unfold dlookup at ih
      rw [ih]
      simp only [dkeys, List.map_cons, List.mem_cons]
      constructor
      · rintro hk (rfl | hm)
        · exact h rfl
        · exact hk hm
      · intro hk hm
        exact hk (Or.inr hm)

theorem dlookup_map_set {α : Type} (d : List (String × α)) (k x : String) (v : α) :
    dlookup (d.map (fun p => if p.1 == k then (k, v) else p)) x =
      if x = k then (dlookup d k).map (fun _ => v) else dlookup d x := by
  induction d with
  | nil => simp [dlookup]
  | cons p d ih =>
    simp only [List.map_cons]
    by_cases hpk : p.1 = k
    · rw [if_pos (by simpa using hpk)]
      by_cases hxk : x = k
      · subst hxk
        rw [if_pos rfl]
        unfold dlookup
        rw [List.find?_cons_of_pos _ (by simp), List.find?_cons_of_pos _ (by simpa using hpk)]
        simp
      · rw [if_neg hxk]
        unfold dlookup
        rw [List.find?_cons_of_neg _ (by simp; exact fun hh => hxk hh.symm),
          List.find?_cons_of_neg _ (by simp [hpk]; exact fun hh => hxk hh.symm)]
        have h2 := ih
        unfold dlookup at h2
        rw [h2, if_neg hxk]
    · rw [if_neg (by simpa using hpk)]
      by_cases hpx : p.1 = x
      · rw [if_neg (fun hh => hpk (hpx.trans hh))]
        unfold dlookup
        rw [List.find?_cons_of_pos _ (by simpa using hpx),
          List.find?_cons_of_pos _ (by simpa using hpx)]
      · by_cases hxk : x = k
        · subst hxk
          rw [if_pos rfl]
          unfold dlookup
          rw [List.find?_cons_of_neg _ (by simpa using hpx),
            List.find?_cons_of_neg _ (by simpa using hpk)]
          have h2 := ih
          unfold dlookup at h2
          rw [h2, if_pos rfl]
        · rw [if_neg hxk]
          unfold dlookup
          rw [List.find?_cons_of_neg _ (by simpa using hpx),
            List.find?_cons_of_neg _ (by simpa using hpx)]
          have h2 := ih
          unfold dlookup at h2
          rw [h2, if_neg hxk]

theorem dlookup_append_single {α : Type} (d : List (String × α)) (k x : String) (v : α) :
    dlookup (d ++ [(k, v)]) x =
      (dlookup d x).or (if x = k then some v else none) := by
  induction d with
  | nil =>
    by_cases h : x = k
    · subst h
      simp [dlookup]
    · unfold dlookup
      rw [List.nil_append, List.find?_cons_of_neg _ (by simp; exact fun hh => h hh.symm)]
      simp [h, dlookup]
  | cons p d ih =>
    by_cases h : p.1 = x
    · unfold dlookup
      rw [List.cons_append, List.find?_cons_of_pos _ (by simpa using h),
        List.find?_cons_of_pos _ (by simpa using h)]
      simp
    · unfold dlookup
      rw [List.cons_append, List.find?_cons_of_neg _ (by simpa using h),
        List.find?_cons_of_neg _ (by simpa using h)]
      have h2 := ih
      unfold dlookup at h2
      rw [h2]

theorem dlookup_dict_set {α : Type} (d : List (String × α)) (k x : String) (v : α) :
    dlookup (dict_set d k v) x = if x = k then some v else dlookup d x := by
  rw [dict_set]
  by_cases h : d.any (fun p => p.1 == k) = true
  · rw [if_pos h, dlookup_map_set]
    by_cases hxk : x = k
    · rw [if_pos hxk, if_pos hxk]
      have hk : k ∈ dkeys d := (any_key_eq d k).mp h
      cases hh : dlookup d k with
      | none => exact absurd ((dlookup_eq_none d k).mp hh) (by simpa using hk)
      | some w => simp
    · rw [if_neg hxk, if_neg hxk]
  · rw [if_neg h, dlookup_append_single]
    by_cases hxk : x = k
    · subst hxk
      have hk : x ∉ dkeys d := fun hm => h ((any_key_eq d x).mpr hm)
      rw [(dlookup_eq_none d x).mpr hk]
      simp
    · rw [if_neg hxk, if_neg hxk]
      cases dlookup d x <;> simp

theorem dlookup_dict_update {α : Type} (d e : List (String × α)) (x : String)
    (he : (dkeys e).Nodup) :
    dlookup (dict_update d e) x = (dlookup e x).or (dlookup d x) := by
  induction e generalizing d with
  | nil => simp [dict_update, dlookup]
  | cons p e ih =>
    simp only [dict_update, List.foldl_cons]
    have hnd : (dkeys e).Nodup ∧ p.1 ∉ dkeys e := by
      have := he
      simp only [dkeys, List.map_cons, List.nodup_cons] at this
      exact ⟨this.2, this.1⟩
    rw [show List.foldl (fun acc q => dict_set acc q.1 q.2) (dict_set d p.1 p.2) e =
          dict_update (dict_set d p.1 p.2) e from rfl, ih _ hnd.1]
    by_cases hx : x = p.1
    · subst hx
      rw [(dlookup_eq_none e p.1).mpr hnd.2]
      have hp : dlookup (p :: e) p.1 = some p.2 := by
        unfold dlookup
        rw [List.find?_cons_of_pos _ (by simp)]
        rfl
      rw [hp, dlookup_dict_set, if_pos rfl]
      simp
    · have hp : dlookup (p :: e) x = dlookup e x := by
        unfold dlookup
        rw [List.find?_cons_of_neg _ (by simp; exact fun hh => hx hh.symm)]
      rw [hp, dlookup_dict_set, if_neg hx]

theorem digitChar_inj_lt : ∀ m, m < 10 → ∀ n, n < 10 → Nat.digitChar m = Nat.digitChar n → m = n := by
  decide

/-- Big-endian decimal digit characters of a number: the list that
`Nat.toDigits 10` produces, defined without fuel. -/
def decChars (n : Nat) : List Char :=
  if n < 10 then [Nat.digitChar n]
  else decChars (n / 10) ++ [Nat.digitChar (n % 10)]
termination_by n
decreasing_by
  exact Nat.div_lt_self (by omega) (by omega)

theorem decChars_lt {n : Nat} (h : n < 10) : decChars n = [Nat.digitChar n] := by
  rw [decChars, if_pos h]

theorem decChars_ge {n : Nat} (h : ¬ n < 10) :
    decChars n = decChars (n / 10) ++ [Nat.digitChar (n % 10)] := by
  conv_lhs => rw [decChars]
  rw [if_neg h]

theorem decChars_ne_nil (n : Nat) : decChars n ≠ [] := by
  by_cases h : n < 10
  · rw [decChars_lt h]
    simp
  · rw [decChars_ge h]
    simp

theorem toDigitsCore_eq_decChars :
    ∀ fuel n ds, n < fuel → Nat.toDigitsCore 10 fuel n ds = decChars n ++ ds := by
  intro fuel
  induction fuel with
  | zero => omega
  | succ f ih =>
    intro n ds hn
    rw [Nat.toDigitsCore]
    by_cases h : n / 10 = 0
    · have hlt : n < 10 := by omega
      simp only [h, if_true]
      rw [decChars_lt hlt, Nat.mod_eq_of_lt hlt]
      rfl
    · have hge : ¬ n < 10 := by omega
      simp only [h, if_false]
      rw [ih (n / 10) _ (by
        have h1 : n / 10 < n := Nat.div_lt_self (by omega) (by omega)
        omega)]
      rw [decChars_ge hge, List.append_assoc]
      rfl

theorem decChars_inj : ∀ m n, decChars m = decChars n → m = n := by
  intro m
  induction m using Nat.strong_induction_on with
  | _ m ih =>
    intro n h
    by_cases hm : m < 10 <;> by_cases hn : n < 10
    · rw [decChars_lt hm, decChars_lt hn] at h
      exact digitChar_inj_lt m hm n hn (by simpa using h)
    · rw [decChars_lt hm, decChars_ge hn] at h
      have hlen := congrArg List.length h
      simp only [List.length_append, List.length_cons, List.length_nil] at hlen
      exact absurd (List.length_eq_zero.mp (by omega)) (decChars_ne_nil (n / 10))
    · rw [decChars_ge hm, decChars_lt hn] at h
      have hlen := congrArg List.length h
      simp only [List.length_append, List.length_cons, List.length_nil] at hlen
      exact absurd (List.length_eq_zero.mp (by omega)) (decChars_ne_nil (m / 10))
    · rw [decChars_ge hm, decChars_ge hn] at h
      have hparts := List.append_inj' h (by simp)
      have hdiv : m / 10 = n / 10 :=
        ih (m / 10) (Nat.div_lt_self (by omega) (by omega)) (n / 10) hparts.1
      have hmod : m % 10 = n % 10 := by
        have hc : Nat.digitChar (m % 10) = Nat.digitChar (n % 10) := by
          have := hparts.2
          simpa using this
        exact digitChar_inj_lt _ (Nat.mod_lt _ (by omega)) _ (Nat.mod_lt _ (by omega)) hc
      omega

theorem Nat.repr_inj {m n : Nat} (h : Nat.repr m = Nat.repr n) : m = n := by
  apply decChars_inj
  have hm : Nat.repr m = (decChars m).asString := by
    rw [Nat.repr, Nat.toDigits, toDigitsCore_eq_decChars (m + 1) m [] (by omega)]
    simp
  have hn : Nat.repr n = (decChars n).asString := by
    rw [Nat.repr, Nat.toDigits, toDigitsCore_eq_decChars (n + 1) n [] (by omega)]
    simp
  rw [hm, hn] at h
  exact congrArg String.data h

theorem get_field_name_inj (a b : NodeData) :
    Field.get_field_name a = Field.get_field_name b ↔ a.pk = b.pk := by
  constructor
  · intro h
    have hd := congrArg String.data h
    rw [Field.get_field_name, Field.get_field_name, String.data_append,
      String.data_append] at hd
    exact Nat.repr_inj (String.ext (List.append_cancel_left hd))
  · intro h
    rw [Field.get_field_name, Field.get_field_name, h]

theorem get_form_fields_container {k : PluginKind} {d : NodeData} {cs : List ContentNode}
    (h : isContainer k = true) :
    get_form_fields (.mk k d cs) = collect_children cs [] := by
  rw [get_form_fields, if_pos h]

theorem get_form_fields_noncontainer {k : PluginKind} {d : NodeData} {cs : List ContentNode}
    (h : isContainer k = false) :
    get_form_fields (.mk k d cs) =
      (match Field.get_form_field? k d with
       | some f => [(Field.get_field_name d, f)]
       | none => []) := by
  rw [get_form_fields, if_neg (by simp [h])]

theorem collect_children_nil (acc : Schema) : collect_children [] acc = acc := by
  rw [collect_children]

theorem collect_children_cons (c : ContentNode) (cs : List ContentNode) (acc : Schema) :
    collect_children (c :: cs) acc =
      collect_children cs
        (if has_get_form_fields c.kind then dict_update acc (get_form_fields c) else acc) := by
  rw [collect_children]

theorem fieldDescendantData_eq (k : PluginKind) (d : NodeData) (cs : List ContentNode) :
    fieldDescendantData (.mk k d cs) =
      if isContainer k then fieldDescendantDataList cs
      else if isField k then [d]
      else [] := by
  rw [fieldDescendantData]

theorem mem_fieldDescendantDataList (cs : List ContentNode) (dd : NodeData) :
    dd ∈ fieldDescendantDataList cs ↔ ∃ c ∈ cs, dd ∈ fieldDescendantData c := by
  induction cs with
  | nil => simp [fieldDescendantDataList]
  | cons c cs ih =>
    rw [fieldDescendantDataList]
    simp only [List.mem_append, List.mem_cons, ih]
    constructor
    · rintro (h | ⟨c', hc', hd⟩)
      · exact ⟨c, Or.inl rfl, h⟩
      · exact ⟨c', Or.inr hc', hd⟩
    · rintro ⟨c', (rfl | hc'), hd⟩
      · exact Or.inl hd
      · exact Or.inr ⟨c', hc', hd⟩

theorem fieldDescendantData_of_not_cap (c : ContentNode)
    (h : has_get_form_fields c.kind = false) : fieldDescendantData c = [] := by
  obtain ⟨k, d, cs⟩ := c
  cases k <;> simp_all [has_get_form_fields, ContentNode.kind]
  rw [fieldDescendantData_eq]
  simp [isContainer, isField]

theorem nodup_collect_children :
    ∀ (cs : List ContentNode) (acc : Schema),
      (dkeys acc).Nodup → (dkeys (collect_children cs acc)).Nodup := by
  intro cs
  induction cs with
  | nil =>
    intro acc h
    rwa [collect_children_nil]
  | cons c cs ih =>
    intro acc h
    rw [collect_children_cons]
    by_cases hc : has_get_form_fields c.kind = true
    · rw [if_pos hc]
      exact ih _ (nodup_dkeys_dict_update _ _ h)
    · rw [if_neg (by simp [hc])]
      exact ih _ h

theorem nodup_dkeys_get_form_fields (n : ContentNode) :
    (dkeys (get_form_fields n)).Nodup := by
  obtain ⟨k, d, cs⟩ := n
  by_cases h : isContainer k = true
  · rw [get_form_fields_container h]
    exact nodup_collect_children cs [] (by simp [dkeys])
  · rw [get_form_fields_noncontainer (by simpa using h)]
    cases Field.get_form_field? k d <;> simp [dkeys]

theorem mem_dkeys_collect_children :
    ∀ (cs : List ContentNode) (acc : Schema) (x : String),
      x ∈ dkeys (collect_children cs acc) ↔
        x ∈ dkeys acc ∨
          ∃ c ∈ cs, has_get_form_fields c.kind = true ∧ x ∈ dkeys (get_form_fields c) := by
  intro cs
  induction cs with
  | nil =>
    intro acc x
    rw [collect_children_nil]
    simp
  | cons c cs ih =>
    intro acc x
    rw [collect_children_cons]
    by_cases hc : has_get_form_fields c.kind = true
    · rw [if_pos hc, ih, mem_dkeys_dict_update]
      simp only [List.mem_cons]
      constructor
      · rintro ((h | h) | ⟨c', hc', hcap, hx⟩)
        · exact Or.inl h
        · exact Or.inr ⟨c, Or.inl rfl, hc, h⟩
        · exact Or.inr ⟨c', Or.inr hc', hcap, hx⟩
      · rintro (h | ⟨c', (rfl | hc'), hcap, hx⟩)
        · exact Or.inl (Or.inl h)
        · exact Or.inl (Or.inr hx)
        · exact Or.inr ⟨c', hc', hcap, hx⟩
    · rw [if_neg (by simp [hc]), ih]
      simp only [List.mem_cons]
      constructor
      · rintro (h | ⟨c', hc', hcap, hx⟩)
        · exact Or.inl h
        · exact Or.inr ⟨c', Or.inr hc', hcap, hx⟩
      · rintro (h | ⟨c', (rfl | hc'), hcap, hx⟩)
        · exact Or.inl h
        · exact absurd hcap hc
        · exact Or.inr ⟨c', hc', hcap, hx⟩

theorem sizeOf_mk (k : PluginKind) (d : NodeData) (cs : List ContentNode) :
    sizeOf (ContentNode.mk k d cs) = 1 + sizeOf k + sizeOf d + sizeOf cs := by
  simp

theorem mem_dkeys_get_form_fields (n : ContentNode) (x : String) :
    x ∈ dkeys (get_form_fields n) ↔
      ∃ dd ∈ fieldDescendantData n, x = Field.get_field_name dd := by
  suffices H : ∀ N, ∀ n : ContentNode, sizeOf n < N → ∀ x,
      (x ∈ dkeys (get_form_fields n) ↔
        ∃ dd ∈ fieldDescendantData n, x = Field.get_field_name dd) by
    exact H (sizeOf n + 1) n (by omega) x
  intro N
  induction N with
  | zero =>
    intro n h
    omega
  | succ N ih =>
    intro n hn x
    obtain ⟨k, d, cs⟩ := n
    by_cases hk : isContainer k = true
    · rw [get_form_fields_container hk, fieldDescendantData_eq, if_pos hk,
        mem_dkeys_collect_children]
      simp only [dkeys, List.map_nil, List.not_mem_nil, false_or]
      constructor
      · rintro ⟨c, hc, _, hx⟩
        have hsz : sizeOf c < N := by
          have h1 := List.sizeOf_lt_of_mem hc
          have h2 := sizeOf_mk k d cs
          omega
        obtain ⟨dd, hdd, rfl⟩ := (ih c hsz x).mp hx
        exact ⟨dd, (mem_fieldDescendantDataList cs dd).mpr ⟨c, hc, hdd⟩, rfl⟩
      · rintro ⟨dd, hdd, rfl⟩
        obtain ⟨c, hc, hcdd⟩ := (mem_fieldDescendantDataList cs dd).mp hdd
        have hcap : has_get_form_fields c.kind = true := by
          by_contra hcontra
          rw [fieldDescendantData_of_not_cap c (by simpa using hcontra)] at hcdd
          simp at hcdd
        have hsz : sizeOf c < N := by
          have h1 := List.sizeOf_lt_of_mem hc
          have h2 := sizeOf_mk k d cs
          omega
        exact ⟨c, hc, hcap, (ih c hsz _).mpr ⟨dd, hcdd, rfl⟩⟩
    · rw [get_form_fields_noncontainer (by simpa using hk), fieldDescendantData_eq,
        if_neg (by simp [hk])]
      by_cases hf : isField k = true
      · rw [if_pos hf]
        cases k <;> simp_all [isField, isContainer, Field.get_form_field?, dkeys]
      · rw [if_neg (by simp [hf])]
        cases k <;> simp_all [isField, isContainer, Field.get_form_field?, dkeys]

theorem findSome?_append_or {α β : Type} (l1 l2 : List α) (f : α → Option β) :
    (l1 ++ l2).findSome? f = (l1.findSome? f).or (l2.findSome? f) := by
  induction l1 with
  | nil => simp
  | cons a l ih =>
    rw [List.cons_append, List.findSome?_cons, List.findSome?_cons]
    cases f a
    · simpa using ih
    · simp

theorem dlookup_collect_children :
    ∀ (cs : List ContentNode) (acc : Schema) (x : String),
      dlookup (collect_children cs acc) x =
        ((cs.filter (fun c => has_get_form_fields c.kind)).reverse.findSome?
            (fun c => dlookup (get_form_fields c) x)).or (dlookup acc x) := by
  intro cs
  induction cs with
  | nil =>
    intro acc x
    rw [collect_children_nil]
    simp
  | cons c cs ih =>
    intro acc x
    rw [collect_children_cons]
    by_cases hc : has_get_form_fields c.kind = true
    · have hfil : List.filter (fun c : ContentNode => has_get_form_fields c.kind) (c :: cs) =
          c :: List.filter (fun c : ContentNode => has_get_form_fields c.kind) cs := by
        simp [List.filter_cons, hc]
      rw [if_pos hc, ih, hfil, List.reverse_cons, findSome?_append_or,
        dlookup_dict_update _ _ _ (nodup_dkeys_get_form_fields c), Option.or_assoc]
      rw [List.findSome?_cons]
      cases dlookup (get_form_fields c) x <;> simp
    · have hfil : List.filter (fun c : ContentNode => has_get_form_fields c.kind) (c :: cs) =
          List.filter (fun c : ContentNode => has_get_form_fields c.kind) cs := by
        simp [List.filter_cons, hc]
      rw [if_neg (by simp [hc]), ih, hfil]

theorem depth_eq (k : PluginKind) (d : NodeData) (cs : List ContentNode) :
    depth (.mk k d cs) = 1 + depthList cs := by
  rw [depth]

theorem depthList_nil : depthList [] = 0 := by
  rw [depthList.eq_def]

theorem depthList_cons (c : ContentNode) (cs : List ContentNode) :
    depthList (c :: cs) = max (depth c) (depthList cs) := by
  rw [depthList]

theorem collectFuel_eq_get_form_fields :
    ∀ (fuel : Nat) (n : ContentNode), depth n ≤ fuel →
      collectFuel fuel n = some (get_form_fields n) := by
  intro fuel
  induction fuel with
  | zero =>
    intro n h
    obtain ⟨k, d, cs⟩ := n
    rw [depth_eq] at h
    omega
  | succ f ihf =>
    intro n h
    obtain ⟨k, d, cs⟩ := n
    rw [depth_eq] at h
    have hcs : depthList cs ≤ f := by omega
    by_cases hk : isContainer k = true
    · rw [collectFuel, if_pos hk, get_form_fields_container hk]
      suffices H : ∀ (cs' : List ContentNode) (acc : Schema), depthList cs' ≤ f →
          collectChildrenFuel f cs' acc = some (collect_children cs' acc) by
        exact H cs [] hcs
      intro cs'
      induction cs' with
      | nil =>
        intro acc _
        rw [collectChildrenFuel, collect_children_nil]
      | cons c cs' ihc =>
        intro acc hh
        rw [depthList_cons] at hh
        obtain ⟨h1, h2⟩ := Nat.max_le.mp hh
        rw [collectChildrenFuel, collect_children_cons]
        by_cases hcap : has_get_form_fields c.kind = true
        · rw [if_pos hcap, if_pos hcap, ihf c h1]
          exact ihc _ h2
        · rw [if_neg (by simp [hcap]), if_neg (by simp [hcap])]
          exact ihc _ h2
    · rw [collectFuel, if_neg (by simp [hk]), get_form_fields_noncontainer (by simpa using hk)]
      cases Field.get_form_field? k d <;> rfl

/-- Node-row maker for concrete examples: every column blank except the key. -/
def mkData (pk : Nat) : NodeData :=
  { pk := pk, label := "", help_text := "", required := false, required_message := "",
    placeholder_text := "", min_value := none, max_value := none, options := [] }

/-- C1: for every `MultipleSelectField` node the produced field's `required`
flag is the truthiness of `min_value` (not the `required` attribute, which the
statement never consults); a min-choices validator with limit `min_value` is
present iff `min_value` is truthy; every max-choices validator present is
constructed with `min_value` rather than `max_value`; and for
`min_value = 2`, `max_value = 5` both validators carry the value 2. -/
theorem multipleSelect_policy_quirk (inst : NodeData) :
    (MultipleSelectField.get_form_field inst).required = truthy inst.min_value
    ∧ ((MultipleSelectField.get_form_field inst).validators.filter Validator.isMinChoices =
        if truthy inst.min_value then [Validator.minChoices inst.min_value] else [])
    ∧ ((MultipleSelectField.get_form_field inst).validators.filter Validator.isMaxChoices =
        if truthy inst.max_value then [Validator.maxChoices inst.min_value] else [])
    ∧ (MultipleSelectField.get_form_field
        { inst with min_value := some 2, max_value := some 5 }).validators =
        [Validator.minChoices (some 2), Validator.maxChoices (some 2)] := by
  refine ⟨rfl, ?_, ?_, ?_⟩
  · by_cases h1 : truthy inst.min_value = true <;> by_cases h2 : truthy inst.max_value = true <;>
      simp [MultipleSelectField.get_form_field, h1, h2, List.filter_append,
        Validator.isMinChoices, Validator.isMaxChoices]
  · by_cases h1 : truthy inst.min_value = true <;> by_cases h2 : truthy inst.max_value = true <;>
      simp [MultipleSelectField.get_form_field, h1, h2, List.filter_append,
        Validator.isMinChoices, Validator.isMaxChoices]
  · simp [MultipleSelectField.get_form_field, truthy]

/-- C2: for every container node, looking any key up in the collected schema
gives the answer of the last child (in stored order) that exposes the
field-collection capability and whose own schema binds the key: children are
visited in order, non-capable children are skipped, and a later child's
binding overwrites an earlier one with the same identifier. -/
theorem container_lookup_last_writer_wins (k : PluginKind) (d : NodeData)
    (cs : List ContentNode) (x : String) (hk : isContainer k = true) :
    dlookup (get_form_fields (.mk k d cs)) x =
      (cs.filter (fun c => has_get_form_fields c.kind)).reverse.findSome?
        (fun c => dlookup (get_form_fields c) x) := by
  rw [get_form_fields_container hk, dlookup_collect_children]
  cases ((cs.filter (fun c => has_get_form_fields c.kind)).reverse.findSome?
      (fun c => dlookup (get_form_fields c) x)) <;> simp [dlookup]

theorem container_lookup_last_writer_wins_witness :
    dlookup
      (get_form_fields (.mk .formPlugin (mkData 1)
        [.mk .textField { mkData 7 with label := "first" } [],
         .mk .textField { mkData 7 with label := "second" } []]))
      (Field.get_field_name (mkData 7)) =
      ([ContentNode.mk .textField { mkData 7 with label := "first" } [],
        ContentNode.mk .textField { mkData 7 with label := "second" } []].filter
          (fun c => has_get_form_fields c.kind)).reverse.findSome?
        (fun c => dlookup (get_form_fields c) (Field.get_field_name (mkData 7))) :=
  container_lookup_last_writer_wins .formPlugin (mkData 1) _ _ rfl

/-- C3: for every content tree, the key set of the collected schema is exactly
the set of identifiers derived from the field-kind descendants reachable
through container links, and no key is duplicated (each key is bound to
exactly one field description). -/
theorem collect_keys_are_field_descendants (n : ContentNode) :
    (∀ x, x ∈ dkeys (get_form_fields n) ↔
      ∃ dd ∈ fieldDescendantData n, x = Field.get_field_name dd)
    ∧ (dkeys (get_form_fields n)).Nodup :=
  ⟨fun x => mem_dkeys_get_form_fields n x, nodup_dkeys_get_form_fields n⟩

/-- C4: collecting on a leaf field node of any of the five kinds returns a
one-entry schema keyed by the identifier derived from the node's row, and the
derivation is injective: two rows derive the same identifier exactly when
their primary keys coincide. -/
theorem leaf_collect_single_entry_and_name_injective :
    (∀ (d : NodeData) (cs : List ContentNode), get_form_fields (.mk .textField d cs) =
        [(Field.get_field_name d, TextField.get_form_field d)])
    ∧ (∀ (d : NodeData) (cs : List ContentNode), get_form_fields (.mk .booleanField d cs) =
        [(Field.get_field_name d, BooleanField.get_form_field d)])
    ∧ (∀ (d : NodeData) (cs : List ContentNode), get_form_fields (.mk .selectField d cs) =
        [(Field.get_field_name d, SelectField.get_form_field d)])
    ∧ (∀ (d : NodeData) (cs : List ContentNode),
        get_form_fields (.mk .multipleSelectField d cs) =
          [(Field.get_field_name d, MultipleSelectField.get_form_field d)])
    ∧ (∀ (d : NodeData) (cs : List ContentNode), get_form_fields (.mk .captchaField d cs) =
        [(Field.get_field_name d, CaptchaField.get_form_field d)])
    ∧ (∀ a b : NodeData, Field.get_field_name a = Field.get_field_name b ↔ a.pk = b.pk) := by
  refine ⟨?_, ?_, ?_, ?_, ?_, get_field_name_inj⟩ <;>
    · intro d cs
      rw [get_form_fields_noncontainer (by decide)]
      rfl

/-- A `MultipleSelectField` row with a truthy `required_message`, witnessing
that the multi-choice builder ignores the error-message override. -/
def cexData : NodeData :=
  { pk := 3, label := "Colors", help_text := "", required := true,
    required_message := "Please pick at least one.", placeholder_text := "",
    min_value := some 1, max_value := some 4, options := ["red", "blue"] }

/-- C5 counterexample: at `cexData` the `required_message` attribute is set
(and `Field.get_error_messages` would deliver it), yet the multi-choice
builder produces a field with no error-message override at all — the claim
that every field kind applies the override fails on the multi-choice kind. -/
theorem required_message_override_counterexample :
    cexData.required_message = "Please pick at least one."
    ∧ Field.get_error_messages cexData = some "Please pick at least one."
    ∧ (MultipleSelectField.get_form_field cexData).error_messages = none := by
  refine ⟨rfl, ?_, rfl⟩
  rw [Field.get_error_messages, if_pos (by decide)]
  rfl

/-- C5 amended: the Text, Boolean, Single-choice and Captcha builders override
the "required" error message with `required_message` when that attribute is
truthy and keep the platform default otherwise; the Multi-choice builder never
passes an override (its field always keeps the platform default). -/
theorem required_message_override_amended (d : NodeData) :
    (TextField.get_form_field d).error_messages = Field.get_error_messages d
    ∧ (BooleanField.get_form_field d).error_messages = Field.get_error_messages d
    ∧ (SelectField.get_form_field d).error_messages = Field.get_error_messages d
    ∧ (CaptchaField.get_form_field d).error_messages = Field.get_error_messages d
    ∧ (MultipleSelectField.get_form_field d).error_messages = none
    ∧ Field.get_error_messages d =
        (if d.required_message ≠ "" then some d.required_message else none) :=
  ⟨rfl, rfl, rfl, rfl, rfl, rfl⟩

/-- C6: for every `TextField` node the produced field takes `required` from
the node's `required` attribute, its max length from `max_value`, carries a
min-length validator with limit `min_value` exactly when `min_value` is
truthy, and carries the placeholder attribute exactly when
`placeholder_text` is non-blank. -/
theorem textField_spec (inst : NodeData) :
    (TextField.get_form_field inst).required = inst.required
    ∧ (TextField.get_form_field inst).max_length = inst.max_value
    ∧ ((TextField.get_form_field inst).validators =
        if truthy inst.min_value then [Validator.minLength inst.min_value] else [])
    ∧ ((TextField.get_form_field inst).placeholder =
        if inst.placeholder_text ≠ "" then some inst.placeholder_text else none) :=
  ⟨rfl, rfl, rfl, rfl⟩

/-- C7: collecting on a node that is neither a container kind nor a field
kind — `SubmitButton`, or a foreign plugin without the capability —
contributes an empty schema. -/
theorem non_field_non_container_empty (k : PluginKind) (d : NodeData)
    (cs : List ContentNode) (hc : isContainer k = false) (hf : isField k = false) :
    get_form_fields (.mk k d cs) = [] := by
  rw [get_form_fields_noncontainer hc]
  cases k <;> simp_all [isContainer, isField, Field.get_form_field?]

theorem non_field_non_container_empty_witness :
    get_form_fields (.mk .submitButton (mkData 9) []) = [] :=
  non_field_non_container_empty .submitButton (mkData 9) [] rfl rfl

/-- C8: on every tree the collector terminates within fuel bounded by the
tree depth: the fuel-instrumented traversal, given at least `depth n` fuel,
never exhausts its fuel and returns exactly the collected schema. -/
theorem collect_terminates_depth_bounded (n : ContentNode) (fuel : Nat)
    (h : depth n ≤ fuel) : collectFuel fuel n = some (get_form_fields n) :=
  collectFuel_eq_get_form_fields fuel n h

theorem collect_terminates_depth_bounded_witness :
    collectFuel 3
      (.mk .formPlugin (mkData 1)
        [.mk .textField (mkData 2) [],
         .mk .fieldset (mkData 3) [.mk .booleanField (mkData 4) []],
         .mk .submitButton (mkData 5) []]) =
      some (get_form_fields
        (.mk .formPlugin (mkData 1)
          [.mk .textField (mkData 2) [],
           .mk .fieldset (mkData 3) [.mk .booleanField (mkData 4) []],
           .mk .submitButton (mkData 5) []])) :=
  collect_terminates_depth_bounded _ 3 (by
    simp only [depth_eq, depthList_cons, depthList_nil]
    omega)

/-- C9: the success-URL computation returns the configured page's absolute
URL when the stored redirect kind is to-page, the configured URL string when
it is to-URL, and raises (`RuntimeError`) for any other stored value. -/
theorem get_success_url_spec (inst : FormPluginData) :
    (inst.redirect_type = REDIRECT_TO_PAGE →
      FormPlugin.get_success_url inst = .ok inst.page_url)
    ∧ (inst.redirect_type = REDIRECT_TO_URL →
      FormPlugin.get_success_url inst = .ok inst.url)
    ∧ (inst.redirect_type ≠ REDIRECT_TO_PAGE → inst.redirect_type ≠ REDIRECT_TO_URL →
      FormPlugin.get_success_url inst = .error "Form is not configured properly.") := by
  refine ⟨?_, ?_, ?_⟩
  · intro h
    rw [FormPlugin.get_success_url, if_pos (by simp [h])]
  · intro h
    rw [FormPlugin.get_success_url,
      if_neg (by simp [h, REDIRECT_TO_PAGE, REDIRECT_TO_URL]), if_pos (by simp [h])]
  · intro h1 h2
    rw [FormPlugin.get_success_url, if_neg (by simpa using h1), if_neg (by simpa using h2)]

theorem get_success_url_spec_witness :
    FormPlugin.get_success_url { redirect_type := "", page_url := "/p/", url := "/u/" } =
      .error "Form is not configured properly." :=
  (get_success_url_spec { redirect_type := "", page_url := "/p/", url := "/u/" }).2.2
    (by decide) (by decide)

/-- C10: for every `MultipleSelectField` node a max-choices validator is
present exactly when `max_value` is truthy, and its limit is always the raw
`min_value`; in particular with `max_value = 5` and `min_value` unset the
field carries a max-choices validator built from the absent `min_value` and
is not required. -/
theorem multipleSelect_max_validator_from_min (inst : NodeData) :
    ((MultipleSelectField.get_form_field inst).validators.filter Validator.isMaxChoices =
        if truthy inst.max_value then [Validator.maxChoices inst.min_value] else [])
    ∧ (MultipleSelectField.get_form_field
          { inst with min_value := none, max_value := some 5 }).validators =
        [Validator.maxChoices none]
    ∧ (MultipleSelectField.get_form_field
          { inst with min_value := none, max_value := some 5 }).required = false := by
  refine ⟨?_, ?_, rfl⟩
  · by_cases h1 : truthy inst.min_value = true <;> by_cases h2 : truthy inst.max_value = true <;>
      simp [MultipleSelectField.get_form_field, h1, h2, List.filter_append,
        Validator.isMinChoices, Validator.isMaxChoices]
  · simp [MultipleSelectField.get_form_field, truthy]
